import Mathlib

/-!
Shallow embedding of the CloudFox "cape" cross-account privilege-graph
assembly (cli/aws.go: runCapeCommand, runCapeTUICommand) together with the
collaborating structures it uses.  Pure Go functions become Lean functions;
the straight-line command body becomes an explicit state-passing pipeline
whose external effects (AWS calls, pmapper imports, console answers) are
inputs, and whose graph-library calls are additionally recorded in an event
trace so that ordering properties of the assembly can be stated.
-/

namespace Cape

/-- Tri-state risk value of a node (`IsAdminString` / `CanPrivEscToAdminString`
in the Go code render as "Yes" / "No" / "Unknown"). -/
inductive TriState where
  | yes
  | no
  | unknown
deriving DecidableEq, Repr

/-- Go `aws.CapeJobInfo`: one Account-Ledger record.  Field names follow the
Go struct (AccountID, Profile, AnalyzedSuccessfully, AdminOnlyAnalysis,
Source). -/
structure CapeJobInfo where
  accountID : String
  profile : String
  analyzedSuccessfully : Bool
  adminOnlyAnalysis : Bool
  source : String
deriving DecidableEq, Repr

/-- The Go zero value of `CapeJobInfo`: what
`aws.CapeJobInfo{AnalyzedSuccessfully: false}` constructs (every other field
is the type's zero value). -/
def zeroJobRecord : CapeJobInfo :=
  { accountID := "", profile := "", analyzedSuccessfully := false,
    adminOnlyAnalysis := false, source := "" }

/-- Association-list embedding of a Go `map[string]α` (insert-or-replace
semantics, first binding is the visible one). -/
def mapSet {α : Type} : List (String × α) → String → α → List (String × α)
  | [], k, v => [(k, v)]
  | p :: rest, k, v => if p.1 == k then (k, v) :: rest else p :: mapSet rest k v

/-- Lookup in the association-list embedding of a Go map. -/
def mapGet? {α : Type} (m : List (String × α)) (k : String) : Option α :=
  match m.find? (fun p => p.1 == k) with
  | some p => some p.2
  | none => none

/-- Keys of the association-list embedding of a Go map. -/
def mapKeys {α : Type} (m : List (String × α)) : List String := m.map Prod.fst

/-- The account ledger `analyzedAccounts : map[string]aws.CapeJobInfo`. -/
abbrev Ledger := List (String × CapeJobInfo)

/-- One principal reference found in a role's trust policy (spec 4.2): the
principal's ARN plus the short reason code and explanation text the derived
trust edge carries. -/
structure TrustRef where
  principalArn : String
  shortReason : String
  reason : String
deriving DecidableEq, Repr

/-- Go `aws.Node`: one identity or external entity (spec section 3). -/
structure Node where
  arn : String
  nodeType : String
  name : String
  accountID : String
  vendorName : String
  isAdmin : TriState
  canPrivescToAdmin : TriState
  trustedPrincipals : List TrustRef
deriving DecidableEq, Repr

/-- Go pmapper edge record: `{Source, Destination, ShortReason, Reason}`. -/
structure PmapperEdge where
  source : String
  destination : String
  shortReason : String
  reason : String
deriving DecidableEq, Repr

/-- Go `aws.PmapperModule` restricted to the data the cape command reads:
its node list and its edge list. -/
structure PmapperModule where
  nodes : List Node
  edges : List PmapperEdge
deriving DecidableEq, Repr

/-- Vendor lookup table (`knownawsaccountslookup`): account ID to vendor
label. -/
abbrev VendorMap := List (String × String)

/-- Vertex attributes stored on `AddVertex` in runCapeCommand (cli/aws.go
lines 1161-1169): Type, Name, VendorName, IsAdminString,
CanPrivEscToAdminString, AccountID. -/
structure VertexProps where
  vertexType : String
  name : String
  vendorName : String
  isAdminString : String
  canPrivEscToAdminString : String
  accountID : String
deriving DecidableEq, Repr

/-- Rendering of a tri-state risk value into the string attribute the Go
code stores on a vertex. -/
def TriState.render : TriState → String
  | .yes => "Yes"
  | .no => "No"
  | .unknown => "Unknown"

/-- Errors of the immutable-vertex graph library (dominikbraun/graph) as the
cape code distinguishes them: `ErrVertexNotFound` and
`ErrEdgeAlreadyExists`. -/
inductive GraphErr where
  | vertexNotFound
  | edgeAlreadyExists
deriving DecidableEq, Repr

/-- One directed edge record with its accumulated attribute map (the edge's
reasons). -/
structure EdgeRec where
  source : String
  destination : String
  attributes : List (String × String)
deriving DecidableEq, Repr

/-- Modelled from the spec: the underlying directed graph structure
(dominikbraun/graph with StringHash), which "forbids re-inserting/updating a
vertex's attributes after creation" (spec section 3).  Vertices are keyed by
ARN; at most one edge record exists per ordered pair. -/
structure Graph where
  vertices : List (String × VertexProps)
  edges : List EdgeRec
deriving DecidableEq, Repr

/-- The empty graph (`graph.New(graph.StringHash, graph.Directed())`). -/
def Graph.empty : Graph := { vertices := [], edges := [] }

/-- Vertex membership test. -/
def Graph.hasVertex (g : Graph) (a : String) : Bool :=
  g.vertices.any (fun p => p.1 == a)

/-- Modelled from the spec: `AddVertex` of the immutable-vertex graph
library; a vertex that already exists is left untouched (the library returns
`ErrVertexAlreadyExists`, which runCapeCommand ignores). -/
def Graph.addVertex (g : Graph) (a : String) (props : VertexProps) : Graph :=
  if g.hasVertex a then g
  else { g with vertices := g.vertices ++ [(a, props)] }

/-- Lookup of the edge record for an ordered pair (`Graph.Edge`). -/
def Graph.edge? (g : Graph) (s d : String) : Option EdgeRec :=
  g.edges.find? (fun e => e.source == s && e.destination == d)

/-- Modelled from the spec: `RemoveVertex` of the graph library; a vertex
with incident edges is not removed (the library returns `ErrVertexHasEdges`,
which runCapeCommand ignores), otherwise the vertex is deleted. -/
def Graph.removeVertex (g : Graph) (a : String) : Graph :=
  if g.edges.any (fun e => e.source == a || e.destination == a) then g
  else { g with vertices := g.vertices.filter (fun p => !(p.1 == a)) }

/-- Modelled from the spec: `AddEdge` of the graph library; it fails with
`vertexNotFound` when either endpoint is missing and with
`edgeAlreadyExists` when the ordered pair already has an edge. -/
def Graph.addEdge (g : Graph) (s d : String) (attrs : List (String × String)) :
    Except GraphErr Graph :=
  if !(g.hasVertex s) || !(g.hasVertex d) then .error .vertexNotFound
  else
    match g.edge? s d with
    | some _ => .error .edgeAlreadyExists
    | none => .ok { g with edges := g.edges ++ [⟨s, d, attrs⟩] }

/-- Modelled from the spec: `UpdateEdge` of the graph library; replaces the
attribute map of the edge for the ordered pair. -/
def Graph.updateEdge (g : Graph) (s d : String) (attrs : List (String × String)) :
    Graph :=
  { g with
    edges := g.edges.map (fun e =>
      if e.source == s && e.destination == d then { e with attributes := attrs }
      else e) }

/-- Edge insertion with merge-on-duplicate, exactly as runCapeCommand's
pmapper-edge loop (cli/aws.go lines 1197-1227): a fresh edge is added with
one reason attribute; on `ErrEdgeAlreadyExists` the existing edge's
attribute map gains the new reason and the edge is updated; any other error
(a missing endpoint) is silently ignored. -/
def insertPmapperEdge (g : Graph) (e : PmapperEdge) : Graph :=
  match g.addEdge e.source e.destination [(e.shortReason, e.reason)] with
  | .ok g' => g'
  | .error .edgeAlreadyExists =>
    match g.edge? e.source e.destination with
    | some ex =>
      g.updateEdge e.source e.destination (mapSet ex.attributes e.shortReason e.reason)
    | none => g
  | .error .vertexNotFound => g

/-- Merge of the tri-state risk fields (spec 4.1): the more informative
(non-unknown) value wins; on a concrete conflict the higher-risk value
(`yes`) wins. -/
def mergeTri : TriState → TriState → TriState
  | .unknown, b => b
  | a, .unknown => a
  | .yes, _ => .yes
  | _, .yes => .yes
  | .no, .no => .no

/-- First non-empty string (spec 4.1: `vendorName`/`type`/name fields take
the first non-empty value seen). -/
def firstNonEmpty (a b : String) : String := if a == "" then b else a

/-- Merge of two node records with the same ARN (spec 4.1 conflict policy);
the first argument is the node seen first. -/
def mergeNode (a b : Node) : Node :=
  { arn := a.arn
    nodeType := firstNonEmpty a.nodeType b.nodeType
    name := firstNonEmpty a.name b.name
    accountID := firstNonEmpty a.accountID b.accountID
    vendorName := firstNonEmpty a.vendorName b.vendorName
    isAdmin := mergeTri a.isAdmin b.isAdmin
    canPrivescToAdmin := mergeTri a.canPrivescToAdmin b.canPrivescToAdmin
    trustedPrincipals := a.trustedPrincipals ++ b.trustedPrincipals }

/-- One step of the node-merge fold: a node whose ARN is already represented
is merged into the existing record, otherwise it is appended. -/
def mergeStep (acc : List Node) (n : Node) : List Node :=
  if acc.any (fun m => m.arn == n.arn) then
    acc.map (fun m => if m.arn == n.arn then mergeNode m n else m)
  else acc ++ [n]

/-- Modelled from the spec: `aws.MergeNodes` (body not under src/, only its
call site in runCapeCommand): groups the input nodes by ARN and produces
exactly one node per group whose fields are the union of non-empty fields
across the group (spec 4.1). -/
def MergeNodes (ns : List Node) : List Node := ns.foldl mergeStep []

/-- The ARNs of a node sequence, in order. -/
def nodeArns (ns : List Node) : List String := ns.map Node.arn

/-- Account ID extracted from an ARN (field 4 of the colon-separated form,
e.g. `arn:aws:iam::111111111111:role/foo`). -/
def extractAccountFromArn (arn : String) : String :=
  (arn.splitOn ":").getD 4 ""

/-- Modelled from the spec: conversion of one trust-policy principal
reference into a Node (spec 4.2): a principal matching the vendor map gets
`vendorName` set and is not treated as a discovered customer account;
otherwise a node of type ExternalAccount with the account ID extracted from
the ARN. -/
def trustRefToNode (vendors : VendorMap) (r : TrustRef) : Node :=
  let acct := extractAccountFromArn r.principalArn
  match mapGet? vendors acct with
  | some vname =>
    { arn := r.principalArn, nodeType := "Account", name := r.principalArn,
      accountID := acct, vendorName := vname, isAdmin := .unknown,
      canPrivescToAdmin := .unknown, trustedPrincipals := [] }
  | none =>
    { arn := r.principalArn, nodeType := "ExternalAccount", name := r.principalArn,
      accountID := acct, vendorName := "", isAdmin := .unknown,
      canPrivescToAdmin := .unknown, trustedPrincipals := [] }

/-- Modelled from the spec: `aws.FindVerticesInRoleTrust` (body not under
src/): one Node per principal reference in the role's trust policy
(spec 4.2 output contract). -/
def FindVerticesInRoleTrust (n : Node) (vendors : VendorMap) : List Node :=
  n.trustedPrincipals.map (trustRefToNode vendors)

/-- One IAM role as the cape collection loop consumes it: identity fields,
the locally-computed risk booleans, and the parsed trust-policy principal
references. -/
structure IAMRole where
  arn : String
  name : String
  accountID : String
  isAdminLocal : Bool
  canPrivescLocal : Bool
  trustedPrincipals : List TrustRef
deriving DecidableEq, Repr

/-- One IAM user as the cape collection loop consumes it. -/
structure IAMUser where
  arn : String
  name : String
  accountID : String
  isAdminLocal : Bool
  canPrivescLocal : Bool
deriving DecidableEq, Repr

/-- Modelled from the spec: `aws.ConvertIAMRoleToNode` (body not under src/,
only its call site at cli/aws.go line 1124): builds the role's Node; an
account whose ledger record has `analyzedSuccessfully = false` (or that has
no record) makes the derived risk fields read `unknown`, never a concrete
boolean (spec 4.4 and section 8). -/
def ConvertIAMRoleToNode (role : IAMRole) (vendors : VendorMap)
    (analyzedAccounts : Ledger) : Node :=
  let analyzed :=
    match mapGet? analyzedAccounts role.accountID with
    | some rec => rec.analyzedSuccessfully
    | none => false
  { arn := role.arn, nodeType := "Role", name := role.name,
    accountID := role.accountID,
    vendorName := (mapGet? vendors role.accountID).getD "",
    isAdmin := if analyzed then (if role.isAdminLocal then .yes else .no) else .unknown,
    canPrivescToAdmin :=
      if analyzed then (if role.canPrivescLocal then .yes else .no) else .unknown,
    trustedPrincipals := role.trustedPrincipals }

/-- Modelled from the spec: `aws.ConvertIAMUserToNode` (body not under
src/): builds the user's Node from the identity listing. -/
def ConvertIAMUserToNode (u : IAMUser) : Node :=
  { arn := u.arn, nodeType := "User", name := u.name, accountID := u.accountID,
    vendorName := "",
    isAdmin := if u.isAdminLocal then .yes else .no,
    canPrivescToAdmin := if u.canPrivescLocal then .yes else .no,
    trustedPrincipals := [] }

/-- Modelled from the spec: `Node.MakeRoleEdges` (body not under src/):
derives one trust edge per principal reference of the role and inserts it
with the same merge-on-duplicate handling as imported edges (spec 4.3
steps 5-6). -/
def MakeRoleEdges (g : Graph) (n : Node) : Graph :=
  n.trustedPrincipals.foldl
    (fun g r => insertPmapperEdge g ⟨r.principalArn, n.arn, r.shortReason, r.reason⟩) g

/-- The external results one profile contributes to a cape run: the
`AWSWhoami` account (none = error, the loops `continue`), whether
`InitializeCloudFoxRunData` succeeded, the pmapper import result (none =
error), the operator's console answer to the continue prompt, the parsed
permission rows (`none` embeds a nil `Rows` slice), and the IAM
role/user listings. -/
structure ProfileData where
  profile : String
  whoami : Option String
  runDataOk : Bool
  pmapper : Option PmapperModule
  continueAnswer : String
  permissionRows : Option (List String)
  listRoles : List IAMRole
  listUsers : List IAMUser
deriving DecidableEq, Repr

/-- One invocation's inputs: the profile list with each profile's external
results, the `--admin-only` flag, the ARNs the ignore-list file yields
(empty when the flag is unset), and the vendor map. -/
structure CapeInput where
  profiles : List ProfileData
  capeAdminOnly : Bool
  ignoreArns : List String
  vendors : VendorMap
deriving DecidableEq, Repr

/-- First profile loop of runCapeCommand (cli/aws.go lines 1023-1037): every
profile whose whoami and run-data initialization succeed gets a ledger
record with `source = "user"` and `analyzedSuccessfully = true`. -/
def phaseAStep (adminOnly : Bool) (L : Ledger) (pd : ProfileData) : Ledger :=
  match pd.whoami with
  | none => L
  | some acct =>
    if pd.runDataOk then
      mapSet L acct
        { accountID := acct, profile := pd.profile, analyzedSuccessfully := true,
          adminOnlyAnalysis := adminOnly, source := "user" }
    else L

/-- Fold of the first profile loop over all profiles. -/
def phaseA (adminOnly : Bool) (ps : List ProfileData) : Ledger :=
  ps.foldl (phaseAStep adminOnly) []

/-- Map from profile name to its imported pmapper module (`pmapperData`). -/
abbrev PmapperMap := List (String × PmapperModule)

/-- Second profile loop of runCapeCommand (cli/aws.go lines 1041-1065): a
failed pmapper import overwrites the account's ledger record with the Go
zero value carrying `AnalyzedSuccessfully: false` and then prompts the
operator; any answer other than "y" exits the program with code 1. -/
def phaseBStep (st : Ledger × PmapperMap) (pd : ProfileData) :
    Except Nat (Ledger × PmapperMap) :=
  match pd.whoami with
  | none => .ok st
  | some acct =>
    match pd.pmapper with
    | some m => .ok (st.1, mapSet st.2 pd.profile m)
    | none =>
      let L' := mapSet st.1 acct zeroJobRecord
      if pd.continueAnswer == "y" then .ok (L', st.2) else .error 1

/-- Fold of the second profile loop; an exit aborts the whole run. -/
def phaseB (L : Ledger) (ps : List ProfileData) : Except Nat (Ledger × PmapperMap) :=
  ps.foldlM phaseBStep (L, [])

/-- The second profile loop's step without the exit case: what `phaseBStep`
computes whenever it does not abort. -/
def phaseBPureStep (st : Ledger × PmapperMap) (pd : ProfileData) : Ledger × PmapperMap :=
  match pd.whoami with
  | none => st
  | some acct =>
    match pd.pmapper with
    | some m => (st.1, mapSet st.2 pd.profile m)
    | none => (mapSet st.1 acct zeroJobRecord, st.2)

/-- Accumulated collection state after the profile loops: the ledger,
the imported pmapper edges (`GlobalPmapperData.Edges`), the flat node set
(`GlobalNodes`) and the gathered permission rows. -/
structure CollectState where
  ledger : Ledger
  pmapperEdges : List PmapperEdge
  globalNodes : List Node
  permissionRows : List String
deriving DecidableEq, Repr

/-- Per-role body of the third loop (cli/aws.go lines 1122-1131): the role's
node plus the vertices found in its trust policy are appended to the flat
node set. -/
def roleCollectStep (vendors : VendorMap) (st : CollectState) (role : IAMRole) :
    CollectState :=
  let node := ConvertIAMRoleToNode role vendors st.ledger
  { st with globalNodes :=
      st.globalNodes ++ [node] ++ FindVerticesInRoleTrust node vendors }

/-- Third profile loop of runCapeCommand (cli/aws.go lines 1066-1147):
permissions gathering (a nil row set marks the account's ledger record with
the zero-valued unsuccessful record and the loop continues), then the
profile's pmapper nodes and edges, then the IAM roles with their trust
vertices, then the IAM users. -/
def phaseCStep (vendors : VendorMap) (pmap : PmapperMap) (st : CollectState)
    (pd : ProfileData) : CollectState :=
  match pd.whoami with
  | none => st
  | some acct =>
    let st1 :=
      match pd.permissionRows with
      | some rows => { st with permissionRows := st.permissionRows ++ rows }
      | none => { st with ledger := mapSet st.ledger acct zeroJobRecord }
    let pm := (mapGet? pmap pd.profile).getD ⟨[], []⟩
    let st2 := { st1 with
      globalNodes := st1.globalNodes ++ pm.nodes,
      pmapperEdges := st1.pmapperEdges ++ pm.edges }
    let st3 := pd.listRoles.foldl (roleCollectStep vendors) st2
    { st3 with globalNodes := st3.globalNodes ++ pd.listUsers.map ConvertIAMUserToNode }

/-- Fold of the third profile loop over all profiles. -/
def phaseC (vendors : VendorMap) (pmap : PmapperMap) (st : CollectState)
    (ps : List ProfileData) : CollectState :=
  ps.foldl (phaseCStep vendors pmap) st

/-- Collection half of runCapeCommand: the three profile loops in order; the
only abort is the continue-prompt exit of the pmapper loop. -/
def capeCollect (i : CapeInput) : Except Nat CollectState :=
  let L0 := phaseA i.capeAdminOnly i.profiles
  match phaseB L0 i.profiles with
  | .error c => .error c
  | .ok (L1, pmap) =>
    .ok (phaseC i.vendors pmap ⟨L1, [], [], []⟩ i.profiles)

/-- The discovered-account AccountRecord runCapeCommand creates for a new
non-vendor account ID (cli/aws.go line 1174). -/
def discoveredRecord (adminOnly : Bool) (acct : String) : CapeJobInfo :=
  { accountID := acct, profile := "", analyzedSuccessfully := false,
    adminOnlyAnalysis := adminOnly, source := "cloudfox" }

/-- Ledger side of the vertex-insertion loop body (cli/aws.go lines
1170-1177): an account ID that is not yet a ledger key, belongs to no vendor
and is non-empty gains a discovered record. -/
def ledgerDiscoverStep (adminOnly : Bool) (L : Ledger) (n : Node) : Ledger :=
  match mapGet? L n.accountID with
  | some _ => L
  | none =>
    if n.vendorName == "" then
      if !(n.accountID == "") then mapSet L n.accountID (discoveredRecord adminOnly n.accountID)
      else L
    else L

/-- The vertex attributes runCapeCommand stores for a node (cli/aws.go
lines 1161-1169). -/
def nodeVertexProps (n : Node) : VertexProps :=
  { vertexType := n.nodeType, name := n.name, vendorName := n.vendorName,
    isAdminString := n.isAdmin.render,
    canPrivEscToAdminString := n.canPrivescToAdmin.render,
    accountID := n.accountID }

/-- One iteration of the vertex-insertion loop (cli/aws.go lines 1160-1178):
`AddVertex` on the graph and the discovered-account ledger check. -/
def vertexInsertStep (adminOnly : Bool) (st : Graph × Ledger) (n : Node) :
    Graph × Ledger :=
  (st.1.addVertex n.arn (nodeVertexProps n), ledgerDiscoverStep adminOnly st.2 n)

/-- Ledger-only projection of the vertex-insertion loop. -/
def insertVerticesLedger (adminOnly : Bool) (ns : List Node) (L : Ledger) : Ledger :=
  ns.foldl (ledgerDiscoverStep adminOnly) L

/-- Events of the assembly half of runCapeCommand, in program order: the one
MergeNodes call, each `AddVertex`, each ignore-list `RemoveVertex`, and each
`AddEdge` attempt. -/
inductive Event where
  | mergeNodesCall (ns : List Node)
  | addVertex (arn : String)
  | removeVertex (arn : String)
  | addEdge (source : String) (destination : String)
deriving DecidableEq, Repr

/-- Whether an event is an `AddEdge` attempt. -/
def Event.isAddEdge : Event → Bool
  | .addEdge _ _ => true
  | _ => false

/-- Whether an event is a `RemoveVertex` call. -/
def Event.isRemoveVertex : Event → Bool
  | .removeVertex _ => true
  | _ => false

/-- The ARN of an `AddVertex` event, if it is one. -/
def Event.addVertexArn? : Event → Option String
  | .addVertex a => some a
  | _ => none

/-- Result state of an invocation: the assembled graph, the final account
ledger, the gathered permission rows, and the event trace of the assembly
half. -/
structure CapeState where
  graph : Graph
  ledger : Ledger
  permissionRows : List String
  trace : List Event
deriving DecidableEq, Repr

/-- The trust-edge events one merged node contributes (only Role-type nodes
derive trust edges, cli/aws.go lines 1236-1240). -/
def roleEdgeEvents (n : Node) : List Event :=
  if n.nodeType == "Role" then
    n.trustedPrincipals.map (fun r => Event.addEdge r.principalArn n.arn)
  else []

/-- Assembly half of runCapeCommand (cli/aws.go lines 1159-1240), in program
order: the single MergeNodes call over the complete flat node set, vertex
insertion with discovered-account bookkeeping, ignore-list vertex removal, the pmapper
edge loop with merge-on-duplicate, and trust edges for every
Role-type merged node.  The trace records the graph calls in the same
order. -/
def capeAssemble (i : CapeInput) (cs : CollectState) : CapeState :=
  let merged := MergeNodes cs.globalNodes
  let gl := merged.foldl (vertexInsertStep i.capeAdminOnly) (Graph.empty, cs.ledger)
  let g2 := i.ignoreArns.foldl Graph.removeVertex gl.1
  let g3 := cs.pmapperEdges.foldl insertPmapperEdge g2
  let g4 := merged.foldl
    (fun g n => if n.nodeType == "Role" then MakeRoleEdges g n else g) g3
  { graph := g4, ledger := gl.2, permissionRows := cs.permissionRows,
    trace := Event.mergeNodesCall cs.globalNodes ::
      (merged.map (fun n => Event.addVertex n.arn) ++
       i.ignoreArns.map Event.removeVertex ++
       cs.pmapperEdges.map (fun e => Event.addEdge e.source e.destination) ++
       merged.flatMap roleEdgeEvents) }

/-- The whole of runCapeCommand as a function of its external inputs: collect
from every profile, then assemble; the only abort is the continue-prompt
exit. -/
def runCapeCommand (i : CapeInput) : Except Nat CapeState :=
  match capeCollect i with
  | .error c => .error c
  | .ok cs => .ok (capeAssemble i cs)

/-- The final account ledger of a completed invocation, `none` when the run
exited at the continue prompt. -/
def runCapeLedger? (i : CapeInput) : Option Ledger :=
  match runCapeCommand i with
  | .ok st => some st.ledger
  | .error _ => none

/-- Result file name of a cape run by mode (cli/aws.go lines 1330-1334). -/
def capeFileName (adminOnly : Bool) : String :=
  if adminOnly then "inbound-privesc-paths-admin-targets-only.json"
  else "inbound-privesc-paths-all-targets.json"

/-- `filepath.Join` of two components as the TUI uses it (no dot or
double-separator cleaning is needed for these shapes). -/
def filepathJoin (a b : String) : String :=
  if a == "" then b else a ++ "/" ++ b

/-- The cape result-file location the TUI recomputes for one profile
(cli/aws.go line 1335): the run's output location joined with `json` and the
mode's file name. -/
def capeOutputFileLocation (outputLocation : String) (adminOnly : Bool) : String :=
  filepathJoin (filepathJoin outputLocation "json") (capeFileName adminOnly)

/-- The file-location list runCapeTUICommand builds (cli/aws.go lines
1322-1335): one recomputed path per profile whose run data initialized
(profiles whose `InitializeCloudFoxRunData` fails are skipped). -/
def capeTUIFileLocations (runOutputLocations : List (Option String))
    (adminOnly : Bool) : List String :=
  runOutputLocations.foldl
    (fun acc loc? =>
      match loc? with
      | none => acc
      | some loc => acc ++ [capeOutputFileLocation loc adminOnly]) []

/-- Placeholder vertex attributes used by concrete examples. -/
def exProps : VertexProps :=
  { vertexType := "Role", name := "r", vendorName := "", isAdminString := "No",
    canPrivEscToAdminString := "No", accountID := "111111111111" }

/-- Concrete two-vertex, zero-edge graph used by concrete examples. -/
def exGraph : Graph :=
  { vertices := [("arn:a", exProps), ("arn:b", exProps)], edges := [] }

/-- Concrete IAM role in account 111111111111 used by concrete examples. -/
def exRole : IAMRole :=
  { arn := "arn:aws:iam::111111111111:role/app", name := "app",
    accountID := "111111111111", isAdminLocal := true, canPrivescLocal := true,
    trustedPrincipals := [] }

/-- Concrete ledger marking account 111111111111 as not analyzed
successfully. -/
def exLedgerFalse : Ledger := [("111111111111", zeroJobRecord)]

/-- Concrete merged node with an empty account ID and no vendor, used by
concrete examples. -/
def exEmptyIdNode : Node :=
  { arn := "arn:aws:iam::aws:role/service", nodeType := "Role", name := "svc",
    accountID := "", vendorName := "", isAdmin := .unknown,
    canPrivescToAdmin := .unknown, trustedPrincipals := [] }

/-- Concrete merged node with a fresh non-vendor account ID, used by
concrete examples. -/
def exDiscNode : Node :=
  { arn := "arn:aws:iam::222222222222:role/x", nodeType := "Role", name := "x",
    accountID := "222222222222", vendorName := "", isAdmin := .unknown,
    canPrivescToAdmin := .unknown, trustedPrincipals := [] }

/-- An account is visibly flagged unsuccessful in a ledger: it has a record
and that record's analyzedSuccessfully is false. -/
def ledgerMarkedFailed (L : Ledger) (a : String) : Prop :=
  ∃ r, mapGet? L a = some r ∧ r.analyzedSuccessfully = false

/-- Concrete profile whose pmapper import fails and whose operator answers
"y" at the continue prompt. -/
def exC5Profile : ProfileData :=
  { profile := "dev", whoami := some "111111111111", runDataOk := true,
    pmapper := none, continueAnswer := "y", permissionRows := some [],
    listRoles := [], listUsers := [] }

/-- Concrete admin-only invocation whose one profile's pmapper import
fails with the operator continuing. -/
def exC5Input : CapeInput :=
  { profiles := [exC5Profile], capeAdminOnly := true, ignoreArns := [],
    vendors := [] }

/-- Concrete profile whose pmapper import fails and whose operator answers
"n" at the continue prompt. -/
def exExitProfile : ProfileData :=
  { profile := "dev", whoami := some "111111111111", runDataOk := true,
    pmapper := none, continueAnswer := "n", permissionRows := some [],
    listRoles := [], listUsers := [] }

/-- Concrete invocation whose one profile's pmapper import fails with the
operator declining to continue. -/
def exExitInput : CapeInput :=
  { profiles := [exExitProfile], capeAdminOnly := false, ignoreArns := [],
    vendors := [] }

/-- Concrete invocation with no profiles and no ignore list. -/
def exEmptyInput : CapeInput :=
  { profiles := [], capeAdminOnly := false, ignoreArns := [], vendors := [] }

/-- Concrete invocation with no profiles and a one-entry ignore list. -/
def exIgnoreInput : CapeInput :=
  { profiles := [], capeAdminOnly := false, ignoreArns := ["arn:ignored"],
    vendors := [] }

theorem find?_mapSet_self {α : Type} (m : List (String × α)) (k : String) (v : α) :
    (mapSet m k v).find? (fun p => p.1 == k) = some (k, v) := by
  induction m with
  | nil => simp [mapSet]
  | cons p rest ih =>
    by_cases h : p.1 == k
    · simp [mapSet, h, List.find?]
    · simp only [mapSet, h, if_neg, Bool.false_eq_true, not_false_iff, ite_false]
      rw [List.find?_cons_of_neg _ (by simpa using h)]
      exact ih

theorem find?_mapSet_ne {α : Type} (m : List (String × α)) (k k' : String) (v : α)
    (h : k ≠ k') :
    (mapSet m k v).find? (fun p => p.1 == k') = m.find? (fun p => p.1 == k') := by
  have hkk : (k == k') = false := by simpa using h
  induction m with
  | nil => simp [mapSet, List.find?, hkk]
  | cons p rest ih =>
    by_cases hp : p.1 == k
    · have hpk : p.1 = k := by simpa using hp
      simp only [mapSet, hp, ite_true]
      rw [List.find?_cons_of_neg _ (by simp [h]),
        List.find?_cons_of_neg _ (by simp [hpk, h])]
    · simp only [mapSet, hp, Bool.false_eq_true, not_false_iff, ite_false]
      by_cases hq : p.1 == k'
      · rw [List.find?_cons_of_pos _ (by simpa using hq),
          List.find?_cons_of_pos _ (by simpa using hq)]
      · rw [List.find?_cons_of_neg _ (by simpa using hq),
          List.find?_cons_of_neg _ (by simpa using hq)]
        exact ih

theorem mapGet?_set_self {α : Type} (m : List (String × α)) (k : String) (v : α) :
    mapGet? (mapSet m k v) k = some v := by
  simp [mapGet?, find?_mapSet_self]

theorem mapGet?_set_ne {α : Type} (m : List (String × α)) (k k' : String) (v : α)
    (h : k ≠ k') : mapGet? (mapSet m k v) k' = mapGet? m k' := by
  simp [mapGet?, find?_mapSet_ne m k k' v h]

theorem arns_mergeStep (acc : List Node) (n : Node) :
    nodeArns (mergeStep acc n) =
      if n.arn ∈ nodeArns acc then nodeArns acc else nodeArns acc ++ [n.arn] := by
  by_cases h : n.arn ∈ nodeArns acc
  · have hany : acc.any (fun m => m.arn == n.arn) = true := by
      simp only [nodeArns, List.mem_map] at h
      obtain ⟨m, hm, harn⟩ := h
      simp [List.any_eq_true]
      exact ⟨m, hm, harn⟩
    simp only [mergeStep, hany, ite_true, h]
    simp only [nodeArns, List.map_map]
    apply List.map_congr_left
    intro m _
    by_cases hm : m.arn = n.arn <;> simp [hm, mergeNode]
  · have hany : acc.any (fun m => m.arn == n.arn) = false := by
      simp only [nodeArns, List.mem_map] at h
      push_neg at h
      simp only [List.any_eq_false]
      intro m hm
      simpa using h m hm
    rw [if_neg h]
    simp [mergeStep, hany, nodeArns]

theorem mergeFold_nodup_mem (ns : List Node) : ∀ acc : List Node,
    (nodeArns acc).Nodup →
    (nodeArns (ns.foldl mergeStep acc)).Nodup ∧
      ∀ a, a ∈ nodeArns (ns.foldl mergeStep acc) ↔
        (a ∈ nodeArns acc ∨ a ∈ nodeArns ns) := by
  induction ns with
  | nil =>
    intro acc hacc
    refine ⟨hacc, fun a => ?_⟩
    simp [nodeArns]
  | cons n ns ih =>
    intro acc hacc
    have hstep := arns_mergeStep acc n
    have hacc' : (nodeArns (mergeStep acc n)).Nodup := by
      rw [hstep]
      by_cases h : n.arn ∈ nodeArns acc
      · simpa [h] using hacc
      · simp only [h, ite_false]
        simpa [List.nodup_append] using ⟨hacc, h⟩
    have hmem' : ∀ a, a ∈ nodeArns (mergeStep acc n) ↔
        (a ∈ nodeArns acc ∨ a = n.arn) := by
      intro a
      rw [hstep]
      by_cases h : n.arn ∈ nodeArns acc
      · simp only [h, ite_true]
        constructor
        · exact fun ha => Or.inl ha
        · rintro (ha | rfl)
          · exact ha
          · exact h
      · simp [h]
    obtain ⟨h1, h2⟩ := ih (mergeStep acc n) hacc'
    refine ⟨by simpa using h1, fun a => ?_⟩
    rw [List.foldl_cons] at *
    rw [h2 a]
    rw [hmem' a]
    simp only [nodeArns, List.map_cons, List.mem_cons]
    tauto

/-- Claim C8: for every input node sequence, MergeNodes returns exactly one
node per distinct ARN occurring in the input — the output's ARN list has no
duplicates and contains exactly the ARNs of the input. -/
theorem mergeNodes_exactly_one_per_arn (ns : List Node) :
    (nodeArns (MergeNodes ns)).Nodup ∧
      ∀ a, a ∈ nodeArns (MergeNodes ns) ↔ a ∈ nodeArns ns := by
  obtain ⟨h1, h2⟩ := mergeFold_nodup_mem ns [] (by simp [nodeArns])
  refine ⟨h1, fun a => ?_⟩
  rw [MergeNodes, h2 a]
  simp [nodeArns]

/-- Claim C3: a role of an account whose ledger record has
`analyzedSuccessfully = false` gets both risk fields read as `unknown`,
never as a concrete boolean. -/
theorem convertRoleRiskUnknownWhenUnanalyzed (role : IAMRole) (vendors : VendorMap)
    (L : Ledger) (r : CapeJobInfo) (hr : mapGet? L role.accountID = some r)
    (hfalse : r.analyzedSuccessfully = false) :
    (ConvertIAMRoleToNode role vendors L).isAdmin = TriState.unknown ∧
      (ConvertIAMRoleToNode role vendors L).canPrivescToAdmin = TriState.unknown := by
  simp [ConvertIAMRoleToNode, hr, hfalse]

/-- Concrete instance of claim C3's theorem. -/
theorem convertRoleRiskUnknownWhenUnanalyzed_witness :
    mapGet? exLedgerFalse exRole.accountID = some zeroJobRecord ∧
      zeroJobRecord.analyzedSuccessfully = false ∧
      (ConvertIAMRoleToNode exRole [] exLedgerFalse).isAdmin = TriState.unknown ∧
      (ConvertIAMRoleToNode exRole [] exLedgerFalse).canPrivescToAdmin = TriState.unknown :=
  ⟨by decide, rfl,
    convertRoleRiskUnknownWhenUnanalyzed exRole [] exLedgerFalse zeroJobRecord
      (by decide) rfl⟩

/-- Claim C4: inserting the same ordered edge twice with two different
reason codes leaves exactly one edge record for the pair, and its reasons
map holds both codes with their explanation texts. -/
theorem duplicateEdgeInsertMergesReasons (g : Graph) (s d c1 r1 c2 r2 : String)
    (hs : g.hasVertex s = true) (hd : g.hasVertex d = true)
    (h0 : g.edge? s d = none) (hc : c1 ≠ c2) :
    ((insertPmapperEdge (insertPmapperEdge g ⟨s, d, c1, r1⟩) ⟨s, d, c2, r2⟩).edges.filter
        (fun e => e.source == s && e.destination == d)).length = 1 ∧
      ∃ attrs,
        (insertPmapperEdge (insertPmapperEdge g ⟨s, d, c1, r1⟩) ⟨s, d, c2, r2⟩).edge? s d
            = some ⟨s, d, attrs⟩ ∧
          mapGet? attrs c1 = some r1 ∧ mapGet? attrs c2 = some r2 := by
  have h0f : List.find? (fun e => e.source == s && e.destination == d) g.edges = none := h0
  have hnone : ∀ e ∈ g.edges, ¬(e.source == s && e.destination == d) = true :=
    List.find?_eq_none.mp h0f
  have hadd1 : g.addEdge s d [(c1, r1)] =
      .ok { g with edges := g.edges ++ [⟨s, d, [(c1, r1)]⟩] } := by
    simp [Graph.addEdge, hs, hd, h0]
  have hg1 : insertPmapperEdge g ⟨s, d, c1, r1⟩ =
      { g with edges := g.edges ++ [⟨s, d, [(c1, r1)]⟩] } := by
    simp [insertPmapperEdge, hadd1]
  set g1 : Graph := { g with edges := g.edges ++ [⟨s, d, [(c1, r1)]⟩] } with hg1def
  have hv1s : g1.hasVertex s = true := hs
  have hv1d : g1.hasVertex d = true := hd
  have hfind1 : g1.edge? s d = some ⟨s, d, [(c1, r1)]⟩ := by
    show (g.edges ++ [(⟨s, d, [(c1, r1)]⟩ : EdgeRec)]).find?
        (fun e => e.source == s && e.destination == d) = _
    rw [List.find?_append, h0f]
    simp [List.find?]
  have hadd2 : g1.addEdge s d [(c2, r2)] = .error .edgeAlreadyExists := by
    simp [Graph.addEdge, hv1s, hv1d, hfind1]
  have hattrs : mapSet [(c1, r1)] c2 r2 = [(c1, r1), (c2, r2)] := by
    have : (c1 == c2) = false := by simpa using hc
    simp [mapSet, this]
  have hg2 : insertPmapperEdge g1 ⟨s, d, c2, r2⟩ =
      g1.updateEdge s d [(c1, r1), (c2, r2)] := by
    simp [insertPmapperEdge, hadd2, hfind1, hattrs]
  have hmapid : g.edges.map (fun e =>
      if e.source == s && e.destination == d
      then { e with attributes := [(c1, r1), (c2, r2)] } else e) = g.edges := by
    have : ∀ e ∈ g.edges, (fun e =>
        if e.source == s && e.destination == d
        then { e with attributes := [(c1, r1), (c2, r2)] } else e) e = id e := by
      intro e he
      simp only [id]
      rw [if_neg]
      simpa using hnone e he
    rw [List.map_congr_left this, List.map_id]
  have hedges2 : (insertPmapperEdge g1 ⟨s, d, c2, r2⟩).edges =
      g.edges ++ [⟨s, d, [(c1, r1), (c2, r2)]⟩] := by
    rw [hg2]
    simp only [Graph.updateEdge, hg1def, List.map_append]
    rw [hmapid]
    simp [List.map]
  rw [hg1]
  constructor
  · rw [List.length_eq_one]
    refine ⟨⟨s, d, [(c1, r1), (c2, r2)]⟩, ?_⟩
    rw [hedges2, List.filter_append]
    have h1 : g.edges.filter (fun e => e.source == s && e.destination == d) = [] := by
      rw [List.filter_eq_nil_iff]
      exact hnone
    rw [h1]
    simp [List.filter]
  · refine ⟨[(c1, r1), (c2, r2)], ?_, ?_, ?_⟩
    · rw [Graph.edge?, hedges2, List.find?_append, h0f]
      simp [List.find?]
    · simp [mapGet?, List.find?]
    · have hne : (c1 == c2) = false := by simpa using hc
      simp [mapGet?, List.find?, hne]

/-- Concrete instance of claim C4's theorem. -/
theorem duplicateEdgeInsertMergesReasons_witness :
    exGraph.hasVertex "arn:a" = true ∧ exGraph.hasVertex "arn:b" = true ∧
      exGraph.edge? "arn:a" "arn:b" = none ∧
      ("sts:AssumeRole" : String) ≠ "iam:PutRolePolicy" ∧
      (((insertPmapperEdge (insertPmapperEdge exGraph
            ⟨"arn:a", "arn:b", "sts:AssumeRole", "can assume"⟩)
            ⟨"arn:a", "arn:b", "iam:PutRolePolicy", "can attach"⟩).edges.filter
          (fun e => e.source == "arn:a" && e.destination == "arn:b")).length = 1 ∧
        ∃ attrs,
          (insertPmapperEdge (insertPmapperEdge exGraph
              ⟨"arn:a", "arn:b", "sts:AssumeRole", "can assume"⟩)
              ⟨"arn:a", "arn:b", "iam:PutRolePolicy", "can attach"⟩).edge? "arn:a" "arn:b"
              = some ⟨"arn:a", "arn:b", attrs⟩ ∧
            mapGet? attrs "sts:AssumeRole" = some "can assume" ∧
            mapGet? attrs "iam:PutRolePolicy" = some "can attach") :=
  ⟨by decide, by decide, by decide, by decide,
    duplicateEdgeInsertMergesReasons exGraph "arn:a" "arn:b" "sts:AssumeRole"
      "can assume" "iam:PutRolePolicy" "can attach" (by decide) (by decide)
      (by decide) (by decide)⟩

theorem capeTUIFileLocations_fold (adminOnly : Bool) (locs : List (Option String)) :
    ∀ acc : List String,
      locs.foldl
          (fun acc loc? =>
            match loc? with
            | none => acc
            | some loc => acc ++ [capeOutputFileLocation loc adminOnly]) acc
        = acc ++ (locs.filterMap id).map (fun loc => capeOutputFileLocation loc adminOnly) := by
  induction locs with
  | nil => intro acc; simp
  | cons loc? t ih =>
    intro acc
    cases loc? with
    | none => simpa using ih acc
    | some loc =>
      simp only [List.foldl_cons, List.filterMap_cons, id, List.map_cons]
      rw [ih (acc ++ [capeOutputFileLocation loc adminOnly])]
      simp

theorem capeOutputFileLocation_suffix (loc : String) (adminOnly : Bool) :
    ∃ pre, capeOutputFileLocation loc adminOnly = pre ++ ("json/" ++ capeFileName adminOnly) := by
  by_cases h : loc = ""
  · refine ⟨"", ?_⟩
    subst h
    cases adminOnly <;> decide
  · refine ⟨loc ++ "/", ?_⟩
    have hb : (loc == "") = false := by simpa using h
    have hj1 : filepathJoin loc "json" = loc ++ "/" ++ "json" := by
      rw [filepathJoin, hb]
      simp
    have hne2 : ((loc ++ "/" ++ "json" : String) == "") = false := by
      have hne : (loc ++ "/" ++ "json" : String) ≠ "" := by
        intro hcontra
        have hlen := congrArg String.length hcontra
        simp only [String.length_append] at hlen
        have h4 : ("json" : String).length = 4 := by decide
        have h0 : ("" : String).length = 0 := by decide
        omega
      simpa using hne
    rw [capeOutputFileLocation, hj1, filepathJoin, hne2]
    simp only [Bool.false_eq_true, if_false]
    simp only [String.append_assoc]
    congr 1

/-- Claim C9: the cape result-file location the TUI recomputes is a pure
function of the run's output location and the admin-only flag — the TUI's
location list is exactly the pure function mapped over the successful run
locations, and the path always ends in
`json/inbound-privesc-paths-admin-targets-only.json` when admin-only is set
and `json/inbound-privesc-paths-all-targets.json` otherwise. -/
theorem capeTUIOutputPathPureFunction :
    (∀ (locs : List (Option String)) (adminOnly : Bool),
        capeTUIFileLocations locs adminOnly =
          (locs.filterMap id).map (fun loc => capeOutputFileLocation loc adminOnly)) ∧
      (∀ (loc : String) (adminOnly : Bool),
        ∃ pre, capeOutputFileLocation loc adminOnly =
          pre ++ ("json/" ++ capeFileName adminOnly)) ∧
      capeFileName true = "inbound-privesc-paths-admin-targets-only.json" ∧
      capeFileName false = "inbound-privesc-paths-all-targets.json" := by
  refine ⟨fun locs adminOnly => ?_, capeOutputFileLocation_suffix, rfl, rfl⟩
  rw [capeTUIFileLocations, capeTUIFileLocations_fold adminOnly locs []]
  simp

theorem ledgerDiscoverStep_cases (adminOnly : Bool) (L : Ledger) (n : Node) (a : String) :
    mapGet? (ledgerDiscoverStep adminOnly L n) a = mapGet? L a ∨
      (n.accountID = a ∧ mapGet? L a = none ∧
        mapGet? (ledgerDiscoverStep adminOnly L n) a
          = some (discoveredRecord adminOnly a)) := by
  cases hx : mapGet? L n.accountID with
  | some r =>
    rw [ledgerDiscoverStep, hx]
    exact Or.inl rfl
  | none =>
    rw [ledgerDiscoverStep, hx]
    by_cases hv : n.vendorName = ""
    · have hv' : (n.vendorName == "") = true := by simpa using hv
      by_cases hid : n.accountID = ""
      · have hid' : (n.accountID == "") = true := by simpa using hid
        simp only [hv', hid', ite_true, Bool.not_true, Bool.false_eq_true, ite_false]
        exact Or.inl trivial
      · have hid' : (n.accountID == "") = false := by simpa using hid
        simp only [hv', hid', ite_true, Bool.not_false, ite_true]
        by_cases ha : n.accountID = a
        · subst ha
          exact Or.inr ⟨rfl, hx, mapGet?_set_self L n.accountID _⟩
        · exact Or.inl (mapGet?_set_ne L n.accountID a _ ha)
    · have hv' : (n.vendorName == "") = false := by simpa using hv
      simp only [hv', Bool.false_eq_true, ite_false]
      exact Or.inl trivial

theorem ledgerDiscoverStep_preserves (adminOnly : Bool) (L : Ledger) (n : Node)
    (a : String) (r : CapeJobInfo) (h : mapGet? L a = some r) :
    mapGet? (ledgerDiscoverStep adminOnly L n) a = some r := by
  rcases ledgerDiscoverStep_cases adminOnly L n a with heq | ⟨_, hnone, _⟩
  · rw [heq, h]
  · rw [h] at hnone
    exact absurd hnone (by simp)

theorem insertVerticesLedger_preserves (adminOnly : Bool) (ns : List Node) :
    ∀ (L : Ledger) (a : String) (r : CapeJobInfo), mapGet? L a = some r →
      mapGet? (insertVerticesLedger adminOnly ns L) a = some r := by
  induction ns with
  | nil => intro L a r h; exact h
  | cons m ns ih =>
    intro L a r h
    exact ih (ledgerDiscoverStep adminOnly L m) a r
      (ledgerDiscoverStep_preserves adminOnly L m a r h)

theorem ledgerDiscoverStep_adds (adminOnly : Bool) (L : Ledger) (n : Node)
    (hid : n.accountID ≠ "") (hv : n.vendorName = "")
    (habs : mapGet? L n.accountID = none) :
    mapGet? (ledgerDiscoverStep adminOnly L n) n.accountID
      = some (discoveredRecord adminOnly n.accountID) := by
  rw [ledgerDiscoverStep, habs]
  have hv' : (n.vendorName == "") = true := by simpa using hv
  have hid' : (n.accountID == "") = false := by simpa using hid
  simp only [hv', hid', ite_true, Bool.not_false, ite_true]
  exact mapGet?_set_self L n.accountID _

theorem insertVerticesLedger_discovers (adminOnly : Bool) (n : Node)
    (hid : n.accountID ≠ "") (hv : n.vendorName = "") : ∀ (ns : List Node) (L : Ledger),
    n ∈ ns →
    (mapGet? L n.accountID = none ∨
      mapGet? L n.accountID = some (discoveredRecord adminOnly n.accountID)) →
    mapGet? (insertVerticesLedger adminOnly ns L) n.accountID
      = some (discoveredRecord adminOnly n.accountID) := by
  intro ns
  induction ns with
  | nil => intro L hmem; exact absurd hmem (List.not_mem_nil n)
  | cons m ns ih =>
    intro L hmem hdisj
    rcases List.mem_cons.mp hmem with rfl | hns
    · have hL' : mapGet? (ledgerDiscoverStep adminOnly L n) n.accountID
          = some (discoveredRecord adminOnly n.accountID) := by
        rcases hdisj with hnone | hsome
        · exact ledgerDiscoverStep_adds adminOnly L n hid hv hnone
        · exact ledgerDiscoverStep_preserves adminOnly L n n.accountID _ hsome
      exact insertVerticesLedger_preserves adminOnly ns _ n.accountID _ hL'
    · have hdisj' : mapGet? (ledgerDiscoverStep adminOnly L m) n.accountID = none ∨
          mapGet? (ledgerDiscoverStep adminOnly L m) n.accountID
            = some (discoveredRecord adminOnly n.accountID) := by
        rcases ledgerDiscoverStep_cases adminOnly L m n.accountID with heq | ⟨_, _, hsome⟩
        · rw [heq]; exact hdisj
        · exact Or.inr hsome
      exact ih _ hns hdisj'

/-- Counterexample to claim C6 as stated: a merged node whose account ID is
the empty string and whose vendorName is empty, with no ledger entry for
that ID, still produces no AccountRecord during vertex insertion. -/
theorem discoveredEntryNotAddedForEmptyId :
    exEmptyIdNode.vendorName = "" ∧
      mapGet? ([] : Ledger) exEmptyIdNode.accountID = none ∧
      insertVerticesLedger false [exEmptyIdNode] [] = [] ∧
      mapGet? (insertVerticesLedger false [exEmptyIdNode] []) exEmptyIdNode.accountID
        = none := by
  refine ⟨rfl, rfl, ?_, ?_⟩ <;> decide

/-- Claim C6 (amended): during vertex insertion, every merged node whose
account ID is non-empty, is not already a ledger key and has an empty
vendorName yields an AccountRecord with source "cloudfox" and
analyzedSuccessfully = false; a node with a non-empty vendorName never
creates a ledger entry. -/
theorem discoveredAccountRecordsAdded (adminOnly : Bool) (ns : List Node)
    (L0 : Ledger) (n : Node) (hmem : n ∈ ns) (hid : n.accountID ≠ "")
    (hv : n.vendorName = "") (habs : mapGet? L0 n.accountID = none) :
    mapGet? (insertVerticesLedger adminOnly ns L0) n.accountID
        = some (discoveredRecord adminOnly n.accountID) ∧
      ∀ (L : Ledger) (m : Node), m.vendorName ≠ "" →
        ledgerDiscoverStep adminOnly L m = L := by
  constructor
  · exact insertVerticesLedger_discovers adminOnly n hid hv ns L0 hmem (Or.inl habs)
  · intro L m hm
    rw [ledgerDiscoverStep]
    cases mapGet? L m.accountID with
    | some r => rfl
    | none =>
      have : (m.vendorName == "") = false := by simpa using hm
      simp [this]

/-- Concrete instance of claim C6's amended theorem. -/
theorem discoveredAccountRecordsAdded_witness :
    exDiscNode ∈ [exDiscNode] ∧ exDiscNode.accountID ≠ "" ∧
      exDiscNode.vendorName = "" ∧ mapGet? ([] : Ledger) exDiscNode.accountID = none ∧
      (mapGet? (insertVerticesLedger true [exDiscNode] []) exDiscNode.accountID
          = some (discoveredRecord true exDiscNode.accountID) ∧
        ∀ (L : Ledger) (m : Node), m.vendorName ≠ "" →
          ledgerDiscoverStep true L m = L) :=
  ⟨List.mem_singleton.mpr rfl, by decide, rfl, rfl,
    discoveredAccountRecordsAdded true [exDiscNode] [] exDiscNode
      (List.mem_singleton.mpr rfl) (by decide) rfl rfl⟩

theorem mapKeys_mapSet {α : Type} (m : List (String × α)) (k : String) (v : α) :
    ∀ k' ∈ mapKeys (mapSet m k v), k' = k ∨ k' ∈ mapKeys m := by
  induction m with
  | nil => intro k' hk'; simp [mapSet, mapKeys] at hk'; exact Or.inl hk'
  | cons p rest ih =>
    intro k' hk'
    by_cases hp : p.1 == k
    · simp only [mapSet, hp, ite_true, mapKeys, List.map_cons, List.mem_cons] at hk'
      rcases hk' with rfl | hk'
      · exact Or.inl rfl
      · exact Or.inr (by simp [mapKeys, List.mem_cons]; right; simpa [mapKeys] using hk')
    · simp only [mapSet, hp, Bool.false_eq_true, ite_false, mapKeys, List.map_cons,
        List.mem_cons] at hk'
      rcases hk' with rfl | hk'
      · exact Or.inr (by simp [mapKeys])
      · rcases ih k' (by simpa [mapKeys] using hk') with h | h
        · exact Or.inl h
        · exact Or.inr (by simp [mapKeys, List.mem_cons]; right; simpa [mapKeys] using h)

theorem ledgerDiscoverStep_keys (adminOnly : Bool) (L : Ledger) (n : Node) :
    ∀ k ∈ mapKeys (ledgerDiscoverStep adminOnly L n),
      k ∈ mapKeys L ∨ (k = n.accountID ∧ n.accountID ≠ "") := by
  intro k hk
  rw [ledgerDiscoverStep] at hk
  cases hx : mapGet? L n.accountID with
  | some r => rw [hx] at hk; exact Or.inl hk
  | none =>
    rw [hx] at hk
    by_cases hv : n.vendorName = ""
    · have hv' : (n.vendorName == "") = true := by simpa using hv
      by_cases hid : n.accountID = ""
      · have hid' : (n.accountID == "") = true := by simpa using hid
        simp only [hv', hid', ite_true, Bool.not_true, Bool.false_eq_true, ite_false] at hk
        exact Or.inl hk
      · have hid' : (n.accountID == "") = false := by simpa using hid
        simp only [hv', hid', ite_true, Bool.not_false, ite_true] at hk
        rcases mapKeys_mapSet L n.accountID _ k hk with rfl | h
        · exact Or.inr ⟨rfl, hid⟩
        · exact Or.inl h
    · have hv' : (n.vendorName == "") = false := by simpa using hv
      simp only [hv', Bool.false_eq_true, ite_false] at hk
      exact Or.inl hk

/-- Claim C10: vertex insertion never creates a ledger record for an empty
account ID — a node whose accountID is the empty string leaves the ledger
untouched, and insertion preserves the invariant that every ledger key is a
non-empty account ID. -/
theorem ledgerKeysNonempty (adminOnly : Bool) (ns : List Node) (L : Ledger)
    (h : ∀ k ∈ mapKeys L, k ≠ "") :
    (∀ n : Node, n.accountID = "" → ledgerDiscoverStep adminOnly L n = L) ∧
      ∀ k ∈ mapKeys (insertVerticesLedger adminOnly ns L), k ≠ "" := by
  constructor
  · intro n hn
    rw [ledgerDiscoverStep]
    cases mapGet? L n.accountID with
    | some r => rfl
    | none =>
      have : (n.accountID == "") = true := by simpa using hn
      simp [this]
  · induction ns generalizing L with
    | nil => exact h
    | cons m ns ih =>
      intro k hk
      refine ih (ledgerDiscoverStep adminOnly L m) ?_ k hk
      intro k' hk'
      rcases ledgerDiscoverStep_keys adminOnly L m k' hk' with hmem | ⟨rfl, hne⟩
      · exact h k' hmem
      · exact hne

/-- Concrete instance of claim C10's theorem. -/
theorem ledgerKeysNonempty_witness :
    (∀ k ∈ mapKeys exLedgerFalse, k ≠ "") ∧
      ((∀ n : Node, n.accountID = "" →
          ledgerDiscoverStep false exLedgerFalse n = exLedgerFalse) ∧
        ∀ k ∈ mapKeys (insertVerticesLedger false [exEmptyIdNode] exLedgerFalse),
          k ≠ "") :=
  ⟨by decide, ledgerKeysNonempty false [exEmptyIdNode] exLedgerFalse (by decide)⟩

/-- Claim C5 (code evaluated at the failing input): the first profile loop
creates the full user record for account 111111111111, but after the
pmapper-import failure the run's final ledger holds the Go zero-valued
record — accountId, profileName, source and adminOnlyAnalysis are all wiped
rather than kept. -/
theorem capeErrorOverwriteZeroesRecord :
    mapGet? (phaseA exC5Input.capeAdminOnly exC5Input.profiles) "111111111111"
        = some { accountID := "111111111111", profile := "dev",
                 analyzedSuccessfully := true, adminOnlyAnalysis := true,
                 source := "user" } ∧
      (runCapeLedger? exC5Input).map (fun L => mapGet? L "111111111111")
        = some (some zeroJobRecord) ∧
      zeroJobRecord.accountID = "" ∧ zeroJobRecord.profile = "" ∧
      zeroJobRecord.source = "" ∧ zeroJobRecord.adminOnlyAnalysis = false :=
  ⟨by decide, by decide, rfl, rfl, rfl, rfl⟩

/-- Counterexample to claim C2 as stated: a single profile whose
pmapper import fails and whose operator declines the continue prompt makes the whole
run exit with code 1 — the per-account collection failure terminates the
entire assembly. -/
theorem capePmapperFailureExits : runCapeCommand exExitInput = Except.error 1 := by
  rfl

theorem phaseB_ok_of_yes : ∀ ps : List ProfileData,
    (∀ pd ∈ ps, pd.whoami.isSome = true → pd.pmapper = none →
      pd.continueAnswer = "y") →
    ∀ st : Ledger × PmapperMap,
      ps.foldlM phaseBStep st = .ok (ps.foldl phaseBPureStep st) := by
  intro ps
  induction ps with
  | nil => intro _ st; rfl
  | cons pd t ih =>
    intro hcont st
    have hstep : phaseBStep st pd = .ok (phaseBPureStep st pd) := by
      rw [phaseBStep, phaseBPureStep]
      cases hw : pd.whoami with
      | none => rfl
      | some acct =>
        cases hp : pd.pmapper with
        | some m => rfl
        | none =>
          have hy : pd.continueAnswer = "y" :=
            hcont pd (List.mem_cons_self pd t) (by rw [hw]; rfl) hp
          have hy' : (pd.continueAnswer == "y") = true := by simpa using hy
          simp [hy']
    rw [List.foldlM_cons, hstep, List.foldl_cons]
    exact ih (fun pd' h' => hcont pd' (List.mem_cons_of_mem pd h')) (phaseBPureStep st pd)

theorem markedFailed_mapSet_zero (L : Ledger) (x a : String)
    (h : ledgerMarkedFailed L a ∨ x = a) :
    ledgerMarkedFailed (mapSet L x zeroJobRecord) a := by
  by_cases hx : x = a
  · subst hx
    exact ⟨zeroJobRecord, mapGet?_set_self L x zeroJobRecord, rfl⟩
  · rcases h with ⟨r, hr, hf⟩ | heq
    · exact ⟨r, by rw [mapGet?_set_ne L x a zeroJobRecord hx]; exact hr, hf⟩
    · exact absurd heq hx

theorem markedFailed_phaseBPureStep (st : Ledger × PmapperMap) (pd : ProfileData)
    (a : String) (h : ledgerMarkedFailed st.1 a) :
    ledgerMarkedFailed (phaseBPureStep st pd).1 a := by
  rw [phaseBPureStep]
  cases pd.whoami with
  | none => exact h
  | some acct =>
    cases pd.pmapper with
    | some m => exact h
    | none => exact markedFailed_mapSet_zero st.1 acct a (Or.inl h)

theorem markedFailed_phaseBPure_fold (t : List ProfileData) :
    ∀ (st : Ledger × PmapperMap) (a : String), ledgerMarkedFailed st.1 a →
      ledgerMarkedFailed (t.foldl phaseBPureStep st).1 a := by
  induction t with
  | nil => intro st a h; exact h
  | cons pd t ih =>
    intro st a h
    rw [List.foldl_cons]
    exact ih _ a (markedFailed_phaseBPureStep st pd a h)

theorem phaseBPure_marks (pd : ProfileData) (a : String) (hwho : pd.whoami = some a)
    (hpm : pd.pmapper = none) : ∀ (ps : List ProfileData) (st : Ledger × PmapperMap),
    pd ∈ ps → ledgerMarkedFailed (ps.foldl phaseBPureStep st).1 a := by
  intro ps
  induction ps with
  | nil => intro st hmem; exact absurd hmem (List.not_mem_nil pd)
  | cons m t ih =>
    intro st hmem
    rw [List.foldl_cons]
    rcases List.mem_cons.mp hmem with rfl | hmem'
    · apply markedFailed_phaseBPure_fold
      rw [phaseBPureStep, hwho, hpm]
      exact markedFailed_mapSet_zero st.1 a a (Or.inr rfl)
    · exact ih _ hmem'

theorem roleFold_ledger (vendors : VendorMap) (roles : List IAMRole) :
    ∀ st : CollectState, (roles.foldl (roleCollectStep vendors) st).ledger = st.ledger := by
  induction roles with
  | nil => intro st; rfl
  | cons r t ih =>
    intro st
    rw [List.foldl_cons, ih]
    rfl

theorem phaseCStep_ledger (vendors : VendorMap) (pmap : PmapperMap)
    (st : CollectState) (pd : ProfileData) :
    (phaseCStep vendors pmap st pd).ledger =
      match pd.whoami, pd.permissionRows with
      | none, _ => st.ledger
      | some _, some _ => st.ledger
      | some acct, none => mapSet st.ledger acct zeroJobRecord := by
  cases hw : pd.whoami with
  | none => simp [phaseCStep, hw]
  | some acct =>
    cases hp : pd.permissionRows with
    | some rows => simp [phaseCStep, hw, hp, roleFold_ledger]
    | none => simp [phaseCStep, hw, hp, roleFold_ledger]

theorem markedFailed_phaseCStep (vendors : VendorMap) (pmap : PmapperMap)
    (st : CollectState) (pd : ProfileData) (a : String)
    (h : ledgerMarkedFailed st.ledger a) :
    ledgerMarkedFailed (phaseCStep vendors pmap st pd).ledger a := by
  rw [phaseCStep_ledger]
  cases hw : pd.whoami with
  | none => exact h
  | some acct =>
    cases hp : pd.permissionRows with
    | some rows => exact h
    | none => exact markedFailed_mapSet_zero st.ledger acct a (Or.inl h)

theorem markedFailed_phaseC (vendors : VendorMap) (pmap : PmapperMap)
    (ps : List ProfileData) : ∀ (st : CollectState) (a : String),
    ledgerMarkedFailed st.ledger a →
      ledgerMarkedFailed (phaseC vendors pmap st ps).ledger a := by
  induction ps with
  | nil => intro st a h; exact h
  | cons pd t ih =>
    intro st a h
    rw [phaseC, List.foldl_cons]
    exact ih _ a (markedFailed_phaseCStep vendors pmap st pd a h)

theorem phaseC_marks (vendors : VendorMap) (pmap : PmapperMap) (pd : ProfileData)
    (a : String) (hwho : pd.whoami = some a) (hperm : pd.permissionRows = none) :
    ∀ (ps : List ProfileData) (st : CollectState), pd ∈ ps →
      ledgerMarkedFailed (phaseC vendors pmap st ps).ledger a := by
  intro ps
  induction ps with
  | nil => intro st hmem; exact absurd hmem (List.not_mem_nil pd)
  | cons m t ih =>
    intro st hmem
    rw [phaseC, List.foldl_cons]
    rcases List.mem_cons.mp hmem with rfl | hmem'
    · apply markedFailed_phaseC
      rw [phaseCStep_ledger, hwho, hperm]
      exact markedFailed_mapSet_zero st.ledger a a (Or.inr rfl)
    · exact ih _ hmem'

theorem markedFailed_insertVertices (adminOnly : Bool) (ns : List Node) (L : Ledger)
    (a : String) (h : ledgerMarkedFailed L a) :
    ledgerMarkedFailed (insertVerticesLedger adminOnly ns L) a := by
  obtain ⟨r, hr, hf⟩ := h
  exact ⟨r, insertVerticesLedger_preserves adminOnly ns L a r hr, hf⟩

theorem vertexFold_snd (adminOnly : Bool) (ns : List Node) :
    ∀ (g : Graph) (L : Ledger),
      (ns.foldl (vertexInsertStep adminOnly) (g, L)).2 = insertVerticesLedger adminOnly ns L := by
  induction ns with
  | nil => intro g L; rfl
  | cons n t ih =>
    intro g L
    rw [List.foldl_cons]
    exact ih _ _

theorem capeAssemble_ledger (i : CapeInput) (cs : CollectState) :
    (capeAssemble i cs).ledger =
      insertVerticesLedger i.capeAdminOnly (MergeNodes cs.globalNodes) cs.ledger := by
  show ((MergeNodes cs.globalNodes).foldl (vertexInsertStep i.capeAdminOnly)
      (Graph.empty, cs.ledger)).2 = _
  exact vertexFold_snd i.capeAdminOnly (MergeNodes cs.globalNodes) Graph.empty cs.ledger

/-- Claim C2 (amended): when every profile whose pmapper import fails has
the operator answering "y" at the continue prompt, the run completes, and
every account whose pmapper import or permissions gathering failed has its
ledger record marked analyzedSuccessfully = false while the assembly
proceeds over the remaining data. -/
theorem capeCollectionFailuresNonfatal (i : CapeInput)
    (hcont : ∀ pd ∈ i.profiles, pd.whoami.isSome = true → pd.pmapper = none →
      pd.continueAnswer = "y") :
    ∃ st, runCapeCommand i = Except.ok st ∧
      ∀ pd ∈ i.profiles, ∀ a, pd.whoami = some a →
        (pd.pmapper = none ∨ pd.permissionRows = none) →
        ∃ r, mapGet? st.ledger a = some r ∧ r.analyzedSuccessfully = false := by
  have hB : phaseB (phaseA i.capeAdminOnly i.profiles) i.profiles =
      .ok (i.profiles.foldl phaseBPureStep (phaseA i.capeAdminOnly i.profiles, [])) :=
    phaseB_ok_of_yes i.profiles hcont (phaseA i.capeAdminOnly i.profiles, [])
  have hcollect : capeCollect i = .ok (phaseC i.vendors
      (i.profiles.foldl phaseBPureStep (phaseA i.capeAdminOnly i.profiles, [])).2
      ⟨(i.profiles.foldl phaseBPureStep (phaseA i.capeAdminOnly i.profiles, [])).1,
        [], [], []⟩ i.profiles) := by
    show (match phaseB (phaseA i.capeAdminOnly i.profiles) i.profiles with
      | .error c => Except.error c
      | .ok (L1, pmap) =>
        Except.ok (phaseC i.vendors pmap ⟨L1, [], [], []⟩ i.profiles)) = _
    rw [hB]
  refine ⟨capeAssemble i (phaseC i.vendors
      (i.profiles.foldl phaseBPureStep (phaseA i.capeAdminOnly i.profiles, [])).2
      ⟨(i.profiles.foldl phaseBPureStep (phaseA i.capeAdminOnly i.profiles, [])).1,
        [], [], []⟩ i.profiles), ?_, ?_⟩
  · show (match capeCollect i with
      | .error c => Except.error c
      | .ok cs => Except.ok (capeAssemble i cs)) = _
    rw [hcollect]
  · intro pd hpd a hwho hfail
    have hmarked : ledgerMarkedFailed (phaseC i.vendors
        (i.profiles.foldl phaseBPureStep (phaseA i.capeAdminOnly i.profiles, [])).2
        ⟨(i.profiles.foldl phaseBPureStep (phaseA i.capeAdminOnly i.profiles, [])).1,
          [], [], []⟩ i.profiles).ledger a := by
      rcases hfail with hpm | hperm
      · exact markedFailed_phaseC _ _ i.profiles _ a
          (phaseBPure_marks pd a hwho hpm i.profiles _ hpd)
      · exact phaseC_marks _ _ pd a hwho hperm i.profiles _ hpd
    rw [capeAssemble_ledger]
    exact markedFailed_insertVertices _ _ _ a hmarked

/-- Concrete instance of claim C2's amended theorem. -/
theorem capeCollectionFailuresNonfatal_witness :
    (∀ pd ∈ exC5Input.profiles, pd.whoami.isSome = true → pd.pmapper = none →
        pd.continueAnswer = "y") ∧
      ∃ st, runCapeCommand exC5Input = Except.ok st ∧
        ∀ pd ∈ exC5Input.profiles, ∀ a, pd.whoami = some a →
          (pd.pmapper = none ∨ pd.permissionRows = none) →
          ∃ r, mapGet? st.ledger a = some r ∧ r.analyzedSuccessfully = false :=
  ⟨by decide, capeCollectionFailuresNonfatal exC5Input (by decide)⟩

theorem roleEdgeEvents_shape (n : Node) :
    ∀ ev ∈ roleEdgeEvents n, ev.isAddEdge = true := by
  intro ev hev
  rw [roleEdgeEvents] at hev
  split at hev
  · simp only [List.mem_map] at hev
    obtain ⟨r', _, rfl⟩ := hev
    rfl
  · exact absurd hev (List.not_mem_nil ev)

/-- Claim C1: in every completed invocation the trace of the assembly begins
with the single MergeNodes call over the complete collected node set —
nothing, in particular no vertex insertion, precedes it, no second merge
ever occurs, and the vertices inserted are exactly the ARNs of the merged
node set. -/
theorem capeMergeOnceBeforeVertices (i : CapeInput) (st : CapeState)
    (h : runCapeCommand i = Except.ok st) :
    ∃ cs rest, capeCollect i = Except.ok cs ∧
      st.trace = Event.mergeNodesCall cs.globalNodes :: rest ∧
      (∀ ns, Event.mergeNodesCall ns ∉ rest) ∧
      st.trace.filterMap Event.addVertexArn? = nodeArns (MergeNodes cs.globalNodes) := by
  cases hc : capeCollect i with
  | error c =>
    exfalso
    have hrc : runCapeCommand i = Except.error c := by
      show (match capeCollect i with
        | .error c => Except.error c
        | .ok cs => Except.ok (capeAssemble i cs)) = _
      rw [hc]
    rw [hrc] at h
    exact Except.noConfusion h
  | ok cs =>
    have hrc : runCapeCommand i = Except.ok (capeAssemble i cs) := by
      show (match capeCollect i with
        | .error c => Except.error c
        | .ok cs => Except.ok (capeAssemble i cs)) = _
      rw [hc]
    rw [hrc] at h
    have hst : capeAssemble i cs = st := by injection h
    subst hst
    refine ⟨cs,
      (MergeNodes cs.globalNodes).map (fun n => Event.addVertex n.arn) ++
        i.ignoreArns.map Event.removeVertex ++
        cs.pmapperEdges.map (fun e => Event.addEdge e.source e.destination) ++
        (MergeNodes cs.globalNodes).flatMap roleEdgeEvents,
      rfl, rfl, ?_, ?_⟩
    · intro ns hmem
      simp only [List.mem_append, List.mem_map, List.mem_flatMap] at hmem
      rcases hmem with ((⟨n, _, heq⟩ | ⟨a', _, heq⟩) | ⟨e, _, heq⟩) | ⟨n, _, hev⟩
      · exact Event.noConfusion heq
      · exact Event.noConfusion heq
      · exact Event.noConfusion heq
      · have := roleEdgeEvents_shape n _ hev
        simp [Event.isAddEdge] at this
    · have h1 : ((MergeNodes cs.globalNodes).map
          (fun n => Event.addVertex n.arn)).filterMap Event.addVertexArn?
          = nodeArns (MergeNodes cs.globalNodes) := by
        rw [List.filterMap_map]
        show (MergeNodes cs.globalNodes).filterMap (some ∘ Node.arn) = _
        rw [List.filterMap_eq_map]
        rfl
      have h2 : (i.ignoreArns.map Event.removeVertex).filterMap Event.addVertexArn?
          = [] := by
        rw [List.filterMap_map]
        exact List.filterMap_eq_nil_iff.mpr (fun a _ => rfl)
      have h3 : (cs.pmapperEdges.map
          (fun e => Event.addEdge e.source e.destination)).filterMap Event.addVertexArn?
          = [] := by
        rw [List.filterMap_map]
        exact List.filterMap_eq_nil_iff.mpr (fun a _ => rfl)
      have h4 : ((MergeNodes cs.globalNodes).flatMap roleEdgeEvents).filterMap
          Event.addVertexArn? = [] := by
        apply List.filterMap_eq_nil_iff.mpr
        intro ev hev
        simp only [List.mem_flatMap] at hev
        obtain ⟨n, _, hev⟩ := hev
        have := roleEdgeEvents_shape n ev hev
        cases ev <;> simp_all [Event.isAddEdge, Event.addVertexArn?]
      show (Event.mergeNodesCall cs.globalNodes ::
          ((MergeNodes cs.globalNodes).map (fun n => Event.addVertex n.arn) ++
            i.ignoreArns.map Event.removeVertex ++
            cs.pmapperEdges.map (fun e => Event.addEdge e.source e.destination) ++
            (MergeNodes cs.globalNodes).flatMap roleEdgeEvents)).filterMap
          Event.addVertexArn? = nodeArns (MergeNodes cs.globalNodes)
      rw [List.filterMap_cons]
      simp only [List.filterMap_append, h1, h2, h3, h4, List.append_nil]
      rfl

/-- Concrete instance of claim C1's theorem. -/
theorem capeMergeOnceBeforeVertices_witness :
    runCapeCommand exEmptyInput
        = Except.ok (capeAssemble exEmptyInput ⟨[], [], [], []⟩) ∧
      ∃ cs rest, capeCollect exEmptyInput = Except.ok cs ∧
        (capeAssemble exEmptyInput ⟨[], [], [], []⟩).trace
            = Event.mergeNodesCall cs.globalNodes :: rest ∧
        (∀ ns, Event.mergeNodesCall ns ∉ rest) ∧
        (capeAssemble exEmptyInput ⟨[], [], [], []⟩).trace.filterMap Event.addVertexArn?
            = nodeArns (MergeNodes cs.globalNodes) :=
  ⟨rfl, capeMergeOnceBeforeVertices exEmptyInput _ rfl⟩

/-- Claim C7: ignore-list removals happen after all vertex insertions and
before any edge insertion (the trace splits as pre-removal events that are
neither removals nor edge inserts, then the removals, then only edge
inserts); an edge insertion whose source or destination vertex is absent
produces no error and leaves the graph unchanged; and a removal of a vertex
without incident edges really removes it. -/
theorem ignoreRemovalBetweenVerticesAndEdges (i : CapeInput) (st : CapeState)
    (h : runCapeCommand i = Except.ok st) :
    (∃ A E, st.trace = A ++ i.ignoreArns.map Event.removeVertex ++ E ∧
        (∀ ev ∈ A, ev.isAddEdge = false ∧ ev.isRemoveVertex = false) ∧
        (∀ ev ∈ E, ev.isAddEdge = true)) ∧
      (∀ (g : Graph) (e : PmapperEdge),
        (g.hasVertex e.source = false ∨ g.hasVertex e.destination = false) →
        insertPmapperEdge g e = g) ∧
      (∀ (g : Graph) (a : String),
        g.edges.any (fun e => e.source == a || e.destination == a) = false →
        (g.removeVertex a).hasVertex a = false) := by
  refine ⟨?_, ?_, ?_⟩
  · cases hc : capeCollect i with
    | error c =>
      exfalso
      have hrc : runCapeCommand i = Except.error c := by
        show (match capeCollect i with
          | .error c => Except.error c
          | .ok cs => Except.ok (capeAssemble i cs)) = _
        rw [hc]
      rw [hrc] at h
      exact Except.noConfusion h
    | ok cs =>
      have hrc : runCapeCommand i = Except.ok (capeAssemble i cs) := by
        show (match capeCollect i with
          | .error c => Except.error c
          | .ok cs => Except.ok (capeAssemble i cs)) = _
        rw [hc]
      rw [hrc] at h
      have hst : capeAssemble i cs = st := by injection h
      subst hst
      refine ⟨Event.mergeNodesCall cs.globalNodes ::
          (MergeNodes cs.globalNodes).map (fun n => Event.addVertex n.arn),
        cs.pmapperEdges.map (fun e => Event.addEdge e.source e.destination) ++
          (MergeNodes cs.globalNodes).flatMap roleEdgeEvents, ?_, ?_, ?_⟩
      · show Event.mergeNodesCall cs.globalNodes ::
            ((MergeNodes cs.globalNodes).map (fun n => Event.addVertex n.arn) ++
              i.ignoreArns.map Event.removeVertex ++
              cs.pmapperEdges.map (fun e => Event.addEdge e.source e.destination) ++
              (MergeNodes cs.globalNodes).flatMap roleEdgeEvents) = _
        simp [List.append_assoc]
      · intro ev hev
        rcases List.mem_cons.mp hev with rfl | hev
        · exact ⟨rfl, rfl⟩
        · simp only [List.mem_map] at hev
          obtain ⟨n, _, rfl⟩ := hev
          exact ⟨rfl, rfl⟩
      · intro ev hev
        rcases List.mem_append.mp hev with hev | hev
        · simp only [List.mem_map] at hev
          obtain ⟨e, _, rfl⟩ := hev
          rfl
        · simp only [List.mem_flatMap] at hev
          obtain ⟨n, _, hev⟩ := hev
          exact roleEdgeEvents_shape n ev hev
  · intro g e hv
    have hadd : g.addEdge e.source e.destination [(e.shortReason, e.reason)]
        = .error .vertexNotFound := by
      rcases hv with h1 | h1 <;> simp [Graph.addEdge, h1]
    rw [insertPmapperEdge, hadd]
  · intro g a ha
    rw [Graph.removeVertex, ha]
    simp only [Bool.false_eq_true, if_false]
    rw [Graph.hasVertex]
    simp only [List.any_eq_false]
    intro p hp
    have := (List.mem_filter.mp hp).2
    simp only [Bool.not_eq_true'] at this
    simp [this]

/-- Concrete instance of claim C7's theorem. -/
theorem ignoreRemovalBetweenVerticesAndEdges_witness :
    runCapeCommand exIgnoreInput
        = Except.ok (capeAssemble exIgnoreInput ⟨[], [], [], []⟩) ∧
      ((∃ A E, (capeAssemble exIgnoreInput ⟨[], [], [], []⟩).trace
            = A ++ exIgnoreInput.ignoreArns.map Event.removeVertex ++ E ∧
          (∀ ev ∈ A, ev.isAddEdge = false ∧ ev.isRemoveVertex = false) ∧
          (∀ ev ∈ E, ev.isAddEdge = true)) ∧
        (∀ (g : Graph) (e : PmapperEdge),
          (g.hasVertex e.source = false ∨ g.hasVertex e.destination = false) →
          insertPmapperEdge g e = g) ∧
        (∀ (g : Graph) (a : String),
          g.edges.any (fun e => e.source == a || e.destination == a) = false →
          (g.removeVertex a).hasVertex a = false)) :=
  ⟨rfl, ignoreRemovalBetweenVerticesAndEdges exIgnoreInput _ rfl⟩

end Cape
